import Mathlib

/-!
Shallow embedding of the `s9_mdds` time-partitioned retrieval engine
(`src/mdds/src/fs/mod.rs`, `src/mdds/src/fs/file_finder.rs`,
`src/mdds/src/http/market_data/mod.rs`).

Modelling conventions:
* Strings are `List Char` (all data exercised here is ASCII, so Rust's
  byte indices coincide with character indices).
* Instants (`chrono::DateTime<Utc>`) are `Int` milliseconds since the Unix
  epoch; calendar dates (`chrono::NaiveDate`) are `Int` days since the epoch.
* The filesystem and the external parquet decoder (`s9_parquet`) are a record
  of oracles `Fs`: `listDir` is the one directory listing a query performs
  (`none` = `read_dir` fails), `read` is `AsyncParquetReader::new` +
  `read()` (`none` = open/parse failure), `entryStream` is
  `AsyncParquetReader::new` + `into_entry_stream()` (`none` = open failure,
  `Except Unit Entry` items are the per-entry decode results).
* Rust panics are represented explicitly (`ExtractResult.panicked` etc.):
  the byte-range slice in `extract_date_from_filename` can panic.
* External library functions (`chrono` date parsing and
  `DateTime::from_timestamp_millis`, `String::from_utf8`) are modelled
  concretely: a `YYYY-MM-DD` parser over the proleptic Gregorian calendar,
  the documented representable-range check, and a standard UTF-8 validator.
-/

namespace Mdds

/-- Timestamp fields carried by each decoded parquet entry
(`s9_parquet::TimestampInfo`). -/
structure TimestampInfo where
  timestamp_millis : Int
  timestamp_sec : Int
  timestamp_sub_sec : Int
deriving DecidableEq

/-- One raw decoded record (`s9_parquet::Entry`): timestamp fields plus an
opaque byte payload. -/
structure Entry where
  timestamp_info : TimestampInfo
  data : List Nat
deriving DecidableEq

/-- The response record shape (`Message` in `http/market_data/mod.rs`). -/
structure Message where
  timestamp_millis : Int
  timestamp_sec : Int
  timestamp_sub_sec : Int
  data : List Char
deriving DecidableEq

/-- A candidate file parsed from a directory entry
(`FileMetadata` in `fs/mod.rs`): path plus filename-encoded date
(days since the Unix epoch). -/
structure FileMetadata where
  path : List Char
  date : Int
deriving DecidableEq

/-- The query interval (`TimeSlice` in `fs/mod.rs`), in epoch milliseconds. -/
structure TimeSlice where
  fromTime : Int
  toTime : Int
deriving DecidableEq

/-- The path components identifying one logical time series (the
`{exchange}/{market_type}/{stream}/{symbol}` captures). -/
structure QueryKey where
  exchange : List Char
  market_type : List Char
  stream : List Char
  symbol : List Char

/-- The configuration fields the engine consumes (`config.rs`). -/
structure Config where
  market_data_path : List Char
  parquet_file_extension : List Char
  parquet_reader_record_batch_size : Nat

/-- The parsed query string (`QueryParams` in `http/market_data/mod.rs`):
optional `from`/`to` instants in epoch milliseconds. -/
structure QueryParams where
  from? : Option Int
  to? : Option Int

/-- The filesystem / decoder oracles one query interacts with. -/
structure Fs where
  listDir : Option (List (List Char))
  read : List Char → Option (List Entry)
  entryStream : List Char → Option (List (Except Unit Entry))

/- ### Calendar arithmetic (model of the external `chrono` collaborator) -/

/-- Gregorian leap-year test. -/
def isLeap (y : Int) : Bool := (y % 4 == 0 && y % 100 != 0) || y % 400 == 0

/-- Number of days in month `m` of year `y`. -/
def daysInMonth (y : Int) (m : Nat) : Nat :=
  if m == 2 then (if isLeap y then 29 else 28)
  else if m == 4 || m == 6 || m == 9 || m == 11 then 30
  else 31

/-- Days since 1970-01-01 of the Gregorian date `y-m-d`
(Howard Hinnant's `days_from_civil`). -/
def daysFromCivil (y : Int) (m d : Nat) : Int :=
  let y' : Int := if m ≤ 2 then y - 1 else y
  let era : Int := Int.fdiv y' 400
  let yoe : Int := y' - era * 400
  let mp : Int := (Int.ofNat m + 9) % 12
  let doy : Int := Int.fdiv (153 * mp + 2) 5 + (Int.ofNat d - 1)
  let doe : Int := yoe * 365 + Int.fdiv yoe 4 - Int.fdiv yoe 100 + doy
  era * 146097 + doe - 719468

/-- Decimal digit value of a character, if any. -/
def digitVal (c : Char) : Option Nat :=
  if ('0') ≤ c && c ≤ ('9') then some (c.toNat - 48) else none

/-- Model of `chrono::NaiveDate::parse_from_str(s, "%Y-%m-%d")` on canonical
ten-character input: `YYYY-MM-DD` with a valid calendar date parses to its
epoch-day number, anything else fails. -/
def parseNaiveDate (s : List Char) : Option Int :=
  match s with
  | [c1, c2, c3, c4, h1, c5, c6, h2, c7, c8] =>
    if h1 == ('-') && h2 == ('-') then
      match digitVal c1, digitVal c2, digitVal c3, digitVal c4,
            digitVal c5, digitVal c6, digitVal c7, digitVal c8 with
      | some a, some b, some c, some d, some m10, some m1, some d10, some d1 =>
        let y : Int := Int.ofNat (a * 1000 + b * 100 + c * 10 + d)
        let mo : Nat := m10 * 10 + m1
        let da : Nat := d10 * 10 + d1
        if 1 ≤ mo && mo ≤ 12 && 1 ≤ da && da ≤ daysInMonth y mo then
          some (daysFromCivil y mo da)
        else none
      | _, _, _, _, _, _, _, _ => none
    else none
  | _ => none

/-- Calendar date (epoch days) of an instant, as
`chrono::DateTime<Utc>::date_naive()` projects it. -/
def date_naive (t : Int) : Int := Int.fdiv t 86400000

/-- Smallest millisecond timestamp `chrono` can represent
(start of `NaiveDate::MIN`). -/
def MIN_TS_MILLIS : Int := daysFromCivil (-262143) 1 1 * 86400000

/-- Largest millisecond timestamp `chrono` can represent
(end of `NaiveDate::MAX`). -/
def MAX_TS_MILLIS : Int := (daysFromCivil 262142 12 31 + 1) * 86400000 - 1

/-- Model of `chrono::DateTime::<Utc>::from_timestamp_millis`: succeeds exactly
on the representable range, and the resulting instant compares like its
millisecond count. -/
def from_timestamp_millis (m : Int) : Option Int :=
  if MIN_TS_MILLIS ≤ m && m ≤ MAX_TS_MILLIS then some m else none

/- ### UTF-8 (model of `String::from_utf8`) -/

/-- Continuation-byte test for UTF-8. -/
def utf8Cont (b : Nat) : Bool := 0x80 ≤ b && b ≤ 0xBF

/-- Fuel-indexed strict UTF-8 decoder (structural recursion on the fuel so
that the definition evaluates inside the kernel); `utf8Decode` supplies the
byte count as fuel, which always suffices since every step consumes at least
one byte. -/
def utf8DecodeAux : Nat → List Nat → Option (List Char)
  | _, [] => some []
  | 0, _ :: _ => none
  | fuel + 1, b :: rest =>
    if b ≤ 0x7F then
      (utf8DecodeAux fuel rest).map (fun cs => Char.ofNat b :: cs)
    else if b < 0xC2 then none
    else if b ≤ 0xDF then
      match rest with
      | b1 :: rest1 =>
        if utf8Cont b1 then
          (utf8DecodeAux fuel rest1).map
            (fun cs => Char.ofNat ((b - 0xC0) * 0x40 + (b1 - 0x80)) :: cs)
        else none
      | [] => none
    else if b ≤ 0xEF then
      match rest with
      | b1 :: b2 :: rest2 =>
        let lo1 : Nat := if b == 0xE0 then 0xA0 else 0x80
        let hi1 : Nat := if b == 0xED then 0x9F else 0xBF
        if lo1 ≤ b1 && b1 ≤ hi1 && utf8Cont b2 then
          (utf8DecodeAux fuel rest2).map
            (fun cs =>
              Char.ofNat ((b - 0xE0) * 0x1000 + (b1 - 0x80) * 0x40 + (b2 - 0x80)) :: cs)
        else none
      | _ => none
    else if b ≤ 0xF4 then
      match rest with
      | b1 :: b2 :: b3 :: rest3 =>
        let lo1 : Nat := if b == 0xF0 then 0x90 else 0x80
        let hi1 : Nat := if b == 0xF4 then 0x8F else 0xBF
        if lo1 ≤ b1 && b1 ≤ hi1 && utf8Cont b2 && utf8Cont b3 then
          (utf8DecodeAux fuel rest3).map
            (fun cs =>
              Char.ofNat ((b - 0xF0) * 0x40000 + (b1 - 0x80) * 0x1000
                + (b2 - 0x80) * 0x40 + (b3 - 0x80)) :: cs)
        else none
      | _ => none
    else none

/-- Model of `String::from_utf8`: strict UTF-8 decoding of a byte list
(rejecting overlong forms, surrogates and values above U+10FFFF), yielding
the decoded characters or `none` on invalid input. -/
def utf8Decode (bs : List Nat) : Option (List Char) :=
  utf8DecodeAux bs.length bs

/- ### File Finder (`fs/file_finder.rs`, `fs/mod.rs`) -/

/-- Outcome of `FileFinder::extract_date_from_filename`: the Rust function
either returns `Some(date_substring)` (`date`), returns `None` (`skipped`),
or panics on its byte-range slice when the slice's start index exceeds its
end index (`panicked`). `pre` is the already-formatted `"{symbol}."` and
`ext` the already-formatted `".{extension}"`, exactly as the callers build
them. -/
inductive ExtractResult where
  | panicked
  | skipped
  | date (d : List Char)
deriving DecidableEq

/-- Embedding of `FileFinder::extract_date_from_filename` (file_finder.rs
lines 71-79; the free function in fs/mod.rs lines 90-99 is the same logic):
test `starts_with(pre) && ends_with(ext)`, then slice
`filename[pre.len() .. filename.len() - ext.len()]`. The slice panics when
`pre.len() > filename.len() - ext.len()` (prefix and suffix overlap). -/
def extract_date_from_filename (filename pre ext : List Char) : ExtractResult :=
  if pre.isPrefixOf filename && ext.isSuffixOf filename then
    if pre.length ≤ filename.length - ext.length then
      .date ((filename.drop pre.length).take (filename.length - ext.length - pre.length))
    else .panicked
  else .skipped

/-- Embedding of the per-entry loop body of `FileFinder::files_for_symbol`
(file_finder.rs lines 35-48): for each directory entry, extract the date
substring (a panic aborts everything: result `none`), skip entries that do
not match or whose date substring does not parse, and record
`(entry.path(), parsed_date)` for the rest. `entry.path()` joins the
directory path and the filename. -/
def scanEntries (dirPath pre ext : List Char) :
    List (List Char) → Option (List FileMetadata)
  | [] => some []
  | fn :: rest =>
    match extract_date_from_filename fn pre ext with
    | .panicked => none
    | .skipped => scanEntries dirPath pre ext rest
    | .date d =>
      match parseNaiveDate d with
      | none => scanEntries dirPath pre ext rest
      | some dt =>
        (scanEntries dirPath pre ext rest).map
          (fun ms => ⟨dirPath ++ ('/') :: fn, dt⟩ :: ms)

/-- The comparison used by `file_metas.sort_by(|a, b| a.date.cmp(&b.date))`:
ascending by date. -/
def dateLe (a b : FileMetadata) : Prop := a.date ≤ b.date

instance : DecidableRel dateLe := fun a b => Int.decLe a.date b.date

instance : IsTotal FileMetadata dateLe := ⟨fun a b => Int.le_total a.date b.date⟩

instance : IsTrans FileMetadata dateLe := ⟨fun _ _ _ => Int.le_trans⟩

/-- Embedding of Rust's stable `sort_by(|a, b| a.date.cmp(&b.date))`: a
stable sort with respect to a total preorder has a unique possible output,
so stable insertion sort by ascending date is the observable result. -/
def sortByDate (metas : List FileMetadata) : List FileMetadata :=
  List.insertionSort dateLe metas

/-- Embedding of `FileFinder::path_for_symbol` (file_finder.rs lines 54-60):
`base / exchange / market_type / stream` joined with path separators. -/
def path_for_symbol (cfg : Config) (key : QueryKey) : List Char :=
  cfg.market_data_path ++ ('/') :: key.exchange ++ ('/') :: key.market_type
    ++ ('/') :: key.stream

/-- Outcome of `FileFinder::files_for_symbol`: `read_dir` failure, a panic
from the slice in `extract_date_from_filename`, or the date-sorted metadata
list. -/
inductive ScanResult where
  | dirError
  | panicked
  | ok (metas : List FileMetadata)
deriving DecidableEq

/-- Embedding of `FileFinder::files_for_symbol` (file_finder.rs lines 26-52):
list the resolved directory (failure propagates), scan every entry with
`"{symbol}."` / `".{extension}"`, and sort the retained metadata ascending
by date. -/
def files_for_symbol (fs : Fs) (cfg : Config) (key : QueryKey) : ScanResult :=
  match fs.listDir with
  | none => .dirError
  | some entries =>
    match scanEntries (path_for_symbol cfg key) (key.symbol ++ [('.')])
        (('.') :: cfg.parquet_file_extension) entries with
    | none => .panicked
    | some metas => .ok (sortByDate metas)

/-- Embedding of `IsWithin for NaiveDate` (fs/mod.rs lines 55-61): the date
lies between the calendar dates of the interval's endpoints, inclusive. -/
def is_within (d : Int) (ts : TimeSlice) : Bool :=
  decide (date_naive ts.fromTime ≤ d) && decide (d ≤ date_naive ts.toTime)

/-- Embedding of `FileFinder::files_in_time_slice` (file_finder.rs lines
62-69): keep the metadata entries whose date `is_within` the slice and
project to their paths. -/
def files_in_time_slice (metas : List FileMetadata) (ts : TimeSlice) :
    List (List Char) :=
  (metas.filter (fun m => is_within m.date ts)).map (fun m => m.path)

/-- Outcome of `FileFinder::find_files`. -/
inductive FindResult where
  | dirError
  | panicked
  | ok (paths : List (List Char))
deriving DecidableEq

/-- Embedding of `FileFinder::find_files` (file_finder.rs lines 19-24):
scan the symbol directory, then restrict to the query's day-level slice. -/
def find_files (fs : Fs) (cfg : Config) (key : QueryKey) (f t : Int) :
    FindResult :=
  match files_for_symbol fs cfg key with
  | .dirError => .dirError
  | .panicked => .panicked
  | .ok metas => .ok (files_in_time_slice metas ⟨f, t⟩)

/- ### Query Executor, materialized mode (`http/market_data/mod.rs`) -/

/-- Per-entry step of `read_parquet_file` (market_data/mod.rs lines 261-278):
decode the payload as UTF-8; an invalid payload skips the record
(`continue`), a valid one yields a `Message`. -/
def entryToMessage (e : Entry) : Option Message :=
  (utf8Decode e.data).map
    (fun s =>
      ⟨e.timestamp_info.timestamp_millis, e.timestamp_info.timestamp_sec,
        e.timestamp_info.timestamp_sub_sec, s⟩)

/-- Embedding of `read_parquet_file` (market_data/mod.rs lines 246-280):
open and fully read one parquet file (`none` = open/read failure), building
messages and skipping records with invalid UTF-8 payloads. -/
def read_parquet_file (fs : Fs) (p : List Char) : Option (List Message) :=
  (fs.read p).map (fun entries => entries.filterMap entryToMessage)

/-- Embedding of the file loop of `get_market_data` (market_data/mod.rs lines
225-228): read every candidate file in order, extending one accumulated
list; the first failing file aborts the whole query. -/
def readAll (fs : Fs) : List (List Char) → Option (List Message)
  | [] => some []
  | p :: rest =>
    match read_parquet_file fs p with
    | none => none
    | some ms => (readAll fs rest).map (fun more => ms ++ more)

/-- Embedding of the `retain` closure of `get_market_data` (market_data/mod.rs
lines 232-239): keep a message iff its `timestamp_millis` reconstructs into
a valid instant lying in `[f, t]`; an unreconstructable timestamp drops the
message. -/
def tsWithinBool (f t : Int) (m : Message) : Bool :=
  match from_timestamp_millis m.timestamp_millis with
  | some mt => decide (f ≤ mt) && decide (mt ≤ t)
  | none => false

/-- Error outcome of the materialized handler, mirroring its distinct exit
paths: `invalidQuery` is the `BAD_REQUEST` for missing bounds,
`directoryUnavailable` the propagated `find_files` failure, `decodeFailed`
the propagated per-file open/read failure (both surfaced as
`INTERNAL_SERVER_ERROR`), and `panicked` the slice panic inside the scan. -/
inductive QueryError where
  | invalidQuery
  | directoryUnavailable
  | decodeFailed
  | panicked
deriving DecidableEq

/-- Embedding of `get_market_data` (market_data/mod.rs lines 194-244):
validate that both bounds are present, find the candidate files, read them
all in order, then filter the concatenation by exact millisecond timestamp. -/
def get_market_data (fs : Fs) (cfg : Config) (key : QueryKey)
    (q : QueryParams) : Except QueryError (List Message) :=
  match q.from?, q.to? with
  | some f, some t =>
    match find_files fs cfg key f t with
    | .dirError => .error .directoryUnavailable
    | .panicked => .error .panicked
    | .ok paths =>
      if paths.isEmpty then .ok []
      else
        match readAll fs paths with
        | none => .error .decodeFailed
        | some msgs => .ok (msgs.filter (tsWithinBool f t))
  | _, _ => .error .invalidQuery

/- ### Query Executor, incremental mode (`http/market_data/mod.rs`) -/

/-- In-band error kinds of the incremental stream, mirroring the distinct
`anyhow!` messages of `s_market_data`: `findFilesFailed` =
"Failed to find files", `missingParams` = "Missing from/to parameters",
`openFailed` = "Failed to stream parquet file", `entryError` =
"Error reading entry", `dataDecodeError` = "Error decoding message data". -/
inductive SErr where
  | findFilesFailed
  | missingParams
  | openFailed
  | entryError
  | dataDecodeError
deriving DecidableEq

/-- Embedding of the per-entry closure of `s_market_data` (market_data/mod.rs
lines 144-178): a failed entry becomes an in-band error item; a good entry
with an invalid UTF-8 payload becomes an in-band error item; a good entry
with a valid payload becomes a `Message` kept iff its timestamp reconstructs
into an instant inside `[f, t]` (otherwise it is filtered out, yielding no
item). -/
def entryItem (f t : Int) (r : Except Unit Entry) :
    Option (Except SErr Message) :=
  match r with
  | .error _ => some (.error .entryError)
  | .ok e =>
    match utf8Decode e.data with
    | none => some (.error .dataDecodeError)
    | some s =>
      match from_timestamp_millis e.timestamp_info.timestamp_millis with
      | some mt =>
        if f ≤ mt ∧ mt ≤ t then
          some (.ok ⟨e.timestamp_info.timestamp_millis,
            e.timestamp_info.timestamp_sec,
            e.timestamp_info.timestamp_sub_sec, s⟩)
        else none
      | none => none

/-- Embedding of the per-file stream of `s_market_data` (market_data/mod.rs
lines 140-183): an open failure yields the single in-band error item
"Failed to stream parquet file"; otherwise the entry stream is mapped and
filtered per entry. -/
def fileItems (fs : Fs) (f t : Int) (p : List Char) :
    List (Except SErr Message) :=
  match fs.entryStream p with
  | none => [.error .openFailed]
  | some rs => rs.filterMap (entryItem f t)

/-- Decidable equality for `Except` results (used to state and evaluate
concrete query outcomes). -/
instance {ε α : Type} [DecidableEq ε] [DecidableEq α] :
    DecidableEq (Except ε α) := fun a b =>
  match a, b with
  | .error e1, .error e2 =>
    if h : e1 = e2 then .isTrue (by rw [h])
    else .isFalse (fun c => by cases c; exact h rfl)
  | .error _, .ok _ => .isFalse (fun c => by cases c)
  | .ok _, .error _ => .isFalse (fun c => by cases c)
  | .ok m1, .ok m2 =>
    if h : m1 = m2 then .isTrue (by rw [h])
    else .isFalse (fun c => by cases c; exact h rfl)

/-- Outcome of `s_market_data`: either a panic (from the scan's slice) or the
finite sequence of items the flattened stream produces. -/
inductive SResult where
  | panicked
  | items (l : List (Except SErr Message))
deriving DecidableEq

/-- Embedding of `s_market_data` (market_data/mod.rs lines 103-191): missing
bounds yield a one-error stream; a `find_files` failure yields a one-error
stream; otherwise the per-file streams are produced one after the other and
flattened in candidate order. -/
def s_market_data (fs : Fs) (cfg : Config) (key : QueryKey)
    (q : QueryParams) : SResult :=
  match q.from?, q.to? with
  | some f, some t =>
    match find_files fs cfg key f t with
    | .dirError => .items [.error .findFilesFailed]
    | .panicked => .panicked
    | .ok paths => .items ((paths.map (fileItems fs f t)).flatten)
  | _, _ => .items [.error .missingParams]

/-- Embedding of `stream_market_data` (market_data/mod.rs lines 78-100):
reject a query missing either bound with `BAD_REQUEST` before anything else;
otherwise answer with the incremental stream. -/
def stream_market_data (fs : Fs) (cfg : Config) (key : QueryKey)
    (q : QueryParams) : Except QueryError SResult :=
  if q.from?.isNone || q.to?.isNone then .error .invalidQuery
  else .ok (s_market_data fs cfg key q)

/-- Per-file decoded messages as the materialized path produces them, with a
failed read standing in as the empty list (used only under hypotheses that
rule the failure out). -/
def decodedOf (fs : Fs) (p : List Char) : List Message :=
  ((fs.read p).getD []).filterMap entryToMessage

/- ### Helper lemmas -/

/-- A successful `readAll` is the in-order concatenation of the per-file
decoded message lists. -/
theorem readAll_eq_flatten (fs : Fs) :
    ∀ paths msgs, readAll fs paths = some msgs →
      msgs = (paths.map (decodedOf fs)).flatten := by
  intro paths
  induction paths with
  | nil => intro msgs h; simpa [readAll] using h.symm
  | cons p rest ih =>
    intro msgs h
    unfold readAll at h
    cases hr : read_parquet_file fs p with
    | none => rw [hr] at h; exact absurd h (by simp)
    | some ms =>
      rw [hr] at h
      rw [Option.map_eq_some'] at h
      obtain ⟨more, hrest, hmm⟩ := h
      cases hread : fs.read p with
      | none => rw [read_parquet_file, hread] at hr; exact absurd hr (by simp)
      | some entries =>
        rw [read_parquet_file, hread] at hr
        have hms : ms = entries.filterMap entryToMessage := by
          simpa using hr.symm
        rw [List.map_cons, List.flatten_cons, ← ih more hrest, ← hmm, hms]
        simp [decodedOf, hread]

/-- A successful materialized query result is the timestamp-filtered
concatenation of the per-file decoded message lists, taken in candidate
order. -/
theorem get_market_data_ok (fs : Fs) (cfg : Config) (key : QueryKey)
    (f t : Int) (paths : List (List Char)) (msgs : List Message)
    (hfind : find_files fs cfg key f t = .ok paths)
    (h : get_market_data fs cfg key ⟨some f, some t⟩ = .ok msgs) :
    msgs = ((paths.map (decodedOf fs)).flatten).filter (tsWithinBool f t) := by
  have h' :
      (match find_files fs cfg key f t with
        | FindResult.dirError => Except.error QueryError.directoryUnavailable
        | FindResult.panicked => Except.error QueryError.panicked
        | FindResult.ok paths =>
          if paths.isEmpty then Except.ok []
          else
            match readAll fs paths with
            | none => Except.error QueryError.decodeFailed
            | some msgs =>
              Except.ok (msgs.filter (tsWithinBool f t))) = Except.ok msgs := h
  clear h
  rw [hfind] at h'
  have h :
      (if paths.isEmpty then Except.ok []
        else
          match readAll fs paths with
          | none => Except.error QueryError.decodeFailed
          | some msgs =>
            Except.ok (msgs.filter (tsWithinBool f t))) = Except.ok msgs := h'
  clear h'
  by_cases hemp : paths.isEmpty
  · rw [if_pos hemp] at h
    rw [List.isEmpty_iff] at hemp
    subst hemp
    simpa using h.symm
  · rw [if_neg hemp] at h
    cases hread : readAll fs paths with
    | none => rw [hread] at h; exact absurd h (by simp)
    | some ms =>
      rw [hread] at h
      have := readAll_eq_flatten fs paths ms hread
      simp only [Except.ok.injEq] at h
      rw [← h, this]

/-- Reduction of the materialized handler at a query with both bounds
present. -/
theorem get_market_data_some (fs : Fs) (cfg : Config) (key : QueryKey)
    (f t : Int) :
    get_market_data fs cfg key ⟨some f, some t⟩ =
      (match find_files fs cfg key f t with
        | FindResult.dirError => Except.error QueryError.directoryUnavailable
        | FindResult.panicked => Except.error QueryError.panicked
        | FindResult.ok paths =>
          if paths.isEmpty then Except.ok []
          else
            match readAll fs paths with
            | none => Except.error QueryError.decodeFailed
            | some msgs =>
              Except.ok (msgs.filter (tsWithinBool f t))) := rfl

/-- Reduction of the incremental stream at a query with both bounds
present. -/
theorem s_market_data_some (fs : Fs) (cfg : Config) (key : QueryKey)
    (f t : Int) :
    s_market_data fs cfg key ⟨some f, some t⟩ =
      (match find_files fs cfg key f t with
        | FindResult.dirError => SResult.items [.error .findFilesFailed]
        | FindResult.panicked => SResult.panicked
        | FindResult.ok paths =>
          SResult.items ((paths.map (fileItems fs f t)).flatten)) := rfl

/- ### Concrete fixtures for counterexamples and witnesses -/

/-- Example configuration: base directory `d`, extension `parquet`. -/
def exCfg : Config := ⟨("d").toList, ("parquet").toList, 1024⟩

/-- Example query key with symbol `s`. -/
def exKey : QueryKey := ⟨("e").toList, ("m").toList, ("t").toList, ("s").toList⟩

/-- Example query key with symbol `ethusdt`. -/
def exKeyEth : QueryKey :=
  ⟨("e").toList, ("m").toList, ("t").toList, ("ethusdt").toList⟩

/-- Resolved path of the symbol-`s` file for 1970-01-01. -/
def exPath1 : List Char := ("d/e/m/t/s.1970-01-01.parquet").toList

/-- Resolved path of the symbol-`s` file for 1970-01-02. -/
def exPath2 : List Char := ("d/e/m/t/s.1970-01-02.parquet").toList

/-- An entry at timestamp 0 with the ASCII payload `h`. -/
def exEntry : Entry := ⟨⟨0, 0, 0⟩, [104]⟩

/-- Filesystem for C1: two candidate daily files; opening the 1970-01-01
file for streaming fails, the 1970-01-02 file streams one good entry. -/
def fsC1 : Fs :=
  ⟨some [("s.1970-01-01.parquet").toList, ("s.1970-01-02.parquet").toList],
   fun _ => none,
   fun p => if p = exPath1 then none else some [.ok exEntry]⟩

/-- Filesystem whose resolved directory is listable but empty. -/
def fsEmptyDir : Fs := ⟨some [], fun _ => none, fun _ => none⟩

/-- Filesystem whose resolved directory cannot be listed. -/
def fsNoDir : Fs := ⟨none, fun _ => none, fun _ => none⟩

/- ### C1 -/

/-- C1, counterexample. The claim says a decode failure on one candidate file
terminates the incremental sequence with a single error item. On `fsC1` the
1970-01-01 file fails to open, yet the produced sequence continues after the
error item with the record of the later-dated 1970-01-02 file — the flattened
per-file streams resume with the next file. -/
theorem c1_counterexample :
    s_market_data fsC1 exCfg exKey ⟨some 0, some 172800000⟩ =
      .items [.error .openFailed, .ok ⟨0, 0, 0, [('h')]⟩] := by decide

/-- C1, amended. In incremental mode a decode failure on one candidate file
surfaces as exactly one error item, located at that file's position in the
sequence, but it does not terminate the sequence: the items of every
later-dated candidate file follow the error item. -/
theorem c1_open_failure_yields_single_error_item_then_continues
    (fs : Fs) (cfg : Config) (key : QueryKey) (f t : Int)
    (L1 L2 : List (List Char)) (p : List Char)
    (hfind : find_files fs cfg key f t = .ok (L1 ++ p :: L2))
    (hopen : fs.entryStream p = none) :
    s_market_data fs cfg key ⟨some f, some t⟩ =
      .items ((L1.map (fileItems fs f t)).flatten
        ++ .error .openFailed :: (L2.map (fileItems fs f t)).flatten) := by
  have h1 : fileItems fs f t p = [.error .openFailed] := by
    unfold fileItems; rw [hopen]
  rw [s_market_data_some, hfind]
  simp [h1]

/-- C1, witness for the amended theorem at the concrete `fsC1`. -/
theorem c1_witness :
    find_files fsC1 exCfg exKey 0 172800000 = .ok ([] ++ exPath1 :: [exPath2])
    ∧ fsC1.entryStream exPath1 = none
    ∧ s_market_data fsC1 exCfg exKey ⟨some 0, some 172800000⟩ =
        .items (([].map (fileItems fsC1 0 172800000)).flatten
          ++ .error .openFailed
            :: ([exPath2].map (fileItems fsC1 0 172800000)).flatten) :=
  ⟨by decide, by decide,
    c1_open_failure_yields_single_error_item_then_continues fsC1 exCfg exKey
      0 172800000 [] [exPath2] exPath1 (by decide) (by decide)⟩

/- ### C2 -/

/-- C2, counterexample. The claim says a query with `from > to` fails with
`InvalidQuery` without touching the filesystem. With `from = 1 > to = 0` the
engine instead proceeds to the filesystem: over a listable empty directory it
answers with an empty success, and over an unlistable directory it fails with
the directory error — so it does not produce `InvalidQuery`, and its outcome
depends on the filesystem. -/
theorem c2_counterexample :
    get_market_data fsEmptyDir exCfg exKey ⟨some 1, some 0⟩ = .ok []
    ∧ get_market_data fsNoDir exCfg exKey ⟨some 1, some 0⟩ =
        .error .directoryUnavailable :=
  ⟨by decide, by decide⟩

/-- C2, amended. A query with `from > to` (both bounds present) is not
rejected: the engine performs its usual filesystem work, and whenever it
succeeds the resulting record list is empty, because no timestamp can satisfy
the millisecond filter. -/
theorem c2_inverted_interval_not_rejected_but_empty
    (fs : Fs) (cfg : Config) (key : QueryKey) (f t : Int)
    (msgs : List Message) (hlt : t < f)
    (h : get_market_data fs cfg key ⟨some f, some t⟩ = .ok msgs) :
    msgs = [] := by
  cases hfind : find_files fs cfg key f t with
  | dirError => rw [get_market_data_some, hfind] at h; exact absurd h (by simp)
  | panicked => rw [get_market_data_some, hfind] at h; exact absurd h (by simp)
  | ok paths =>
    have hm := get_market_data_ok fs cfg key f t paths msgs hfind h
    rw [hm]
    apply List.filter_eq_nil_iff.mpr
    intro m _
    unfold tsWithinBool
    cases hts : from_timestamp_millis m.timestamp_millis with
    | none => simp
    | some mt =>
      simp only [Bool.and_eq_true, decide_eq_true_eq, not_and]
      intro hf ht
      exact absurd (le_trans hf ht) (by omega)

/-- C2, witness for the amended theorem at the concrete `fsEmptyDir`. -/
theorem c2_witness :
    (0 : Int) < 1
    ∧ get_market_data fsEmptyDir exCfg exKey ⟨some 1, some 0⟩ = .ok []
    ∧ ([] : List Message) = [] :=
  ⟨by decide, by decide,
    c2_inverted_interval_not_rejected_but_empty fsEmptyDir exCfg exKey 1 0 []
      (by decide) (by decide)⟩

/- ### C3 -/

/-- Filesystem for C3: the symbol directory holds one entry named
`ethusdt.parquet`. -/
def fsC3 : Fs := ⟨some [("ethusdt.parquet").toList], fun _ => none, fun _ => none⟩

/-- C3, failing input. The claim says the per-entry filename handling is
total and never panics, in particular on a filename where the symbol-dot
prefix and the dot-extension suffix overlap. But on the entry
`ethusdt.parquet` with symbol `ethusdt` and extension `parquet` both affix
tests pass and the code slices `filename[8..7]`, whose start exceeds its
end — a Rust panic. The File Finder's whole scan panics on such a directory. -/
theorem c3_overlap_filename_panics :
    extract_date_from_filename (("ethusdt.parquet").toList)
        (("ethusdt.").toList) ((".parquet").toList) = .panicked
    ∧ files_for_symbol fsC3 exCfg exKeyEth = .panicked :=
  ⟨by decide, by decide⟩

/- ### C4 -/

/-- A successful directory scan returns a list sorted ascending by date. -/
theorem files_for_symbol_ok_sorted (fs : Fs) (cfg : Config) (key : QueryKey)
    (metas : List FileMetadata)
    (hscan : files_for_symbol fs cfg key = .ok metas) :
    List.Sorted dateLe metas := by
  cases hld : fs.listDir with
  | none =>
    simp only [files_for_symbol, hld] at hscan
    exact absurd hscan (by simp)
  | some entries =>
    simp only [files_for_symbol, hld] at hscan
    cases hsc : scanEntries (path_for_symbol cfg key) (key.symbol ++ [('.')])
        (('.') :: cfg.parquet_file_extension) entries with
    | none => rw [hsc] at hscan; exact absurd hscan (by simp)
    | some metas' =>
      rw [hsc] at hscan
      have hm : sortByDate metas' = metas := by simpa using hscan
      rw [← hm, sortByDate]
      exact List.sorted_insertionSort dateLe metas'

/-- A successful `find_files` result is the day-level selection over the
scan's sorted metadata. -/
theorem find_files_ok_paths (fs : Fs) (cfg : Config) (key : QueryKey)
    (f t : Int) (metas : List FileMetadata) (paths : List (List Char))
    (hscan : files_for_symbol fs cfg key = .ok metas)
    (hfind : find_files fs cfg key f t = .ok paths) :
    paths = files_in_time_slice metas ⟨f, t⟩ := by
  unfold find_files at hfind
  rw [hscan] at hfind
  simpa using hfind.symm

/-- Timestamp-filtered messages of one file, as they appear in a successful
materialized result. -/
def fileMsgs (fs : Fs) (f t : Int) (p : List Char) : List Message :=
  (decodedOf fs p).filter (tsWithinBool f t)

/-- C4: ordering invariant, both modes. The scan's metadata is sorted
ascending by filename date and stays sorted after day-level selection; the
candidate paths are exactly that in-order selection; a successful
materialized result is the concatenation, in candidate order, of each file's
records in decode order (records of an earlier-dated file therefore precede
records of a later-dated one, and no re-sorting of records happens); and the
incremental sequence is the same concatenation of per-file item lists. -/
theorem c4_ordering_invariant (fs : Fs) (cfg : Config) (key : QueryKey)
    (f t : Int) (metas : List FileMetadata) (paths : List (List Char))
    (hscan : files_for_symbol fs cfg key = .ok metas)
    (hfind : find_files fs cfg key f t = .ok paths) :
    List.Sorted dateLe metas
    ∧ List.Sorted dateLe (metas.filter (fun m => is_within m.date ⟨f, t⟩))
    ∧ paths = files_in_time_slice metas ⟨f, t⟩
    ∧ (∀ msgs, get_market_data fs cfg key ⟨some f, some t⟩ = .ok msgs →
        msgs = (paths.map (fileMsgs fs f t)).flatten)
    ∧ s_market_data fs cfg key ⟨some f, some t⟩ =
        .items ((paths.map (fileItems fs f t)).flatten) := by
  have hsorted := files_for_symbol_ok_sorted fs cfg key metas hscan
  refine ⟨hsorted, hsorted.filter _, find_files_ok_paths fs cfg key f t metas paths hscan hfind, ?_, ?_⟩
  · intro msgs h
    have hm := get_market_data_ok fs cfg key f t paths msgs hfind h
    rw [hm, List.filter_flatten, List.map_map]
    rfl
  · rw [s_market_data_some, hfind]

/-- Entry of the C4 fixture dated 1970-01-01, timestamp 5 ms, payload `h`. -/
def c4e1 : Entry := ⟨⟨5, 0, 5⟩, [104]⟩

/-- Entry of the C4 fixture dated 1970-01-02, timestamp day 2 + 5 ms,
payload `i`. -/
def c4e2 : Entry := ⟨⟨86400005, 86400, 5⟩, [105]⟩

/-- Entry of the C4 fixture with a timestamp outside the query interval,
payload `j`. -/
def c4e3 : Entry := ⟨⟨999999999999, 999999999, 999⟩, [106]⟩

/-- Filesystem for C4: two daily files listed out of date order plus an
unrelated entry; each file decodes in both modes. -/
def fsC4 : Fs :=
  ⟨some [("s.1970-01-02.parquet").toList, ("junk.txt").toList,
      ("s.1970-01-01.parquet").toList],
   fun p => if p = exPath1 then some [c4e1, c4e3]
     else if p = exPath2 then some [c4e2] else none,
   fun p => if p = exPath1 then some [.ok c4e1, .ok c4e3]
     else if p = exPath2 then some [.ok c4e2] else none⟩

/-- Metadata the C4 scan produces (sorted by date, day numbers 0 and 1). -/
def c4Metas : List FileMetadata := [⟨exPath1, 0⟩, ⟨exPath2, 1⟩]

/-- C4, witness: the ordering invariant instantiated on `fsC4`, with the
inner quantifier instantiated at the concrete successful result. -/
theorem c4_witness :
    files_for_symbol fsC4 exCfg exKey = .ok c4Metas
    ∧ find_files fsC4 exCfg exKey 0 172800000 = .ok [exPath1, exPath2]
    ∧ List.Sorted dateLe c4Metas
    ∧ [exPath1, exPath2] = files_in_time_slice c4Metas ⟨0, 172800000⟩
    ∧ get_market_data fsC4 exCfg exKey ⟨some 0, some 172800000⟩ =
        .ok [⟨5, 0, 5, [('h')]⟩, ⟨86400005, 86400, 5, [('i')]⟩]
    ∧ [(⟨5, 0, 5, [('h')]⟩ : Message), ⟨86400005, 86400, 5, [('i')]⟩] =
        ([exPath1, exPath2].map (fileMsgs fsC4 0 172800000)).flatten
    ∧ s_market_data fsC4 exCfg exKey ⟨some 0, some 172800000⟩ =
        .items (([exPath1, exPath2].map (fileItems fsC4 0 172800000)).flatten) := by
  have H := c4_ordering_invariant fsC4 exCfg exKey 0 172800000 c4Metas
    [exPath1, exPath2] (by decide) (by decide)
  exact ⟨by decide, by decide, H.1, H.2.2.1, by decide,
    H.2.2.2.1 [⟨5, 0, 5, [('h')]⟩, ⟨86400005, 86400, 5, [('i')]⟩] (by decide),
    H.2.2.2.2⟩

/- ### C5 -/

/-- C5: exact millisecond filtering in the materialized mode. A successful
result is the decoded record list filtered by the timestamp predicate; a
record is kept exactly when its `timestamp_millis` reconstructs into a valid
instant inside `[f, t]` (inclusive both ends); a record whose timestamp does
not reconstruct is dropped; and when `f = t` a record is kept exactly when
its timestamp reconstructs to precisely that instant. -/
theorem c5_millisecond_filter (fs : Fs) (cfg : Config) (key : QueryKey)
    (f t : Int) (paths : List (List Char)) (decoded : List Message)
    (hfind : find_files fs cfg key f t = .ok paths)
    (hread : readAll fs paths = some decoded) :
    get_market_data fs cfg key ⟨some f, some t⟩ =
      .ok (decoded.filter (tsWithinBool f t))
    ∧ (∀ m, m ∈ decoded.filter (tsWithinBool f t) ↔
        m ∈ decoded ∧ ∃ mt, from_timestamp_millis m.timestamp_millis = some mt
          ∧ f ≤ mt ∧ mt ≤ t)
    ∧ (∀ m, from_timestamp_millis m.timestamp_millis = none →
        m ∉ decoded.filter (tsWithinBool f t))
    ∧ (f = t → ∀ m, m ∈ decoded.filter (tsWithinBool f t) ↔
        m ∈ decoded ∧ from_timestamp_millis m.timestamp_millis = some f) := by
  have hts : ∀ m : Message, tsWithinBool f t m = true ↔
      ∃ mt, from_timestamp_millis m.timestamp_millis = some mt
        ∧ f ≤ mt ∧ mt ≤ t := by
    intro m
    unfold tsWithinBool
    cases h : from_timestamp_millis m.timestamp_millis with
    | none => simp
    | some mt => simp
  refine ⟨?_, ?_, ?_, ?_⟩
  · have hred : get_market_data fs cfg key ⟨some f, some t⟩ =
        (if paths.isEmpty then Except.ok []
          else
            match readAll fs paths with
            | none => Except.error QueryError.decodeFailed
            | some msgs =>
              Except.ok (msgs.filter (tsWithinBool f t))) := by
      rw [get_market_data_some, hfind]
    rw [hred]
    by_cases hemp : paths.isEmpty
    · rw [if_pos hemp]
      rw [List.isEmpty_iff] at hemp
      subst hemp
      have hd : decoded = [] := by simpa [readAll] using hread.symm
      rw [hd]
      rfl
    · rw [if_neg hemp, hread]
  · intro m
    rw [List.mem_filter, hts m]
  · intro m hnone hmem
    rw [List.mem_filter, hts m] at hmem
    obtain ⟨-, mt, hsome, -, -⟩ := hmem
    rw [hnone] at hsome
    exact absurd hsome (by simp)
  · intro hft m
    subst hft
    rw [List.mem_filter, hts m]
    constructor
    · rintro ⟨hm, mt, hsome, hle1, hle2⟩
      exact ⟨hm, by rw [hsome, le_antisymm hle2 hle1]⟩
    · rintro ⟨hm, hsome⟩
      exact ⟨hm, f, hsome, le_refl f, le_refl f⟩

/-- Entry of the C5 fixture at timestamp 6 ms, payload `i`. -/
def c5e2 : Entry := ⟨⟨6, 0, 6⟩, [105]⟩

/-- Entry of the C5 fixture whose millisecond timestamp lies outside the
range `chrono` can reconstruct, payload `k`. -/
def c5Bad : Entry := ⟨⟨10000000000000000, 0, 0⟩, [107]⟩

/-- Filesystem for C5: one daily file decoding to records at 5 ms, 6 ms, and
an unreconstructable timestamp. -/
def fsC5 : Fs :=
  ⟨some [("s.1970-01-01.parquet").toList],
   fun p => if p = exPath1 then some [c4e1, c5e2, c5Bad] else none,
   fun _ => none⟩

/-- Messages decoded from the C5 fixture.  -/
def c5Decoded : List Message :=
  [⟨5, 0, 5, [('h')]⟩, ⟨6, 0, 6, [('i')]⟩, ⟨10000000000000000, 0, 0, [('k')]⟩]

/-- C5, witness at `from = to = 5`: only the record with exactly that
millisecond timestamp survives, and the unreconstructable record is dropped. -/
theorem c5_witness :
    find_files fsC5 exCfg exKey 5 5 = .ok [exPath1]
    ∧ readAll fsC5 [exPath1] = some c5Decoded
    ∧ get_market_data fsC5 exCfg exKey ⟨some 5, some 5⟩ =
        .ok (c5Decoded.filter (tsWithinBool 5 5))
    ∧ c5Decoded.filter (tsWithinBool 5 5) = [⟨5, 0, 5, [('h')]⟩]
    ∧ ((⟨5, 0, 5, [('h')]⟩ : Message) ∈ c5Decoded.filter (tsWithinBool 5 5) ↔
        (⟨5, 0, 5, [('h')]⟩ : Message) ∈ c5Decoded
          ∧ from_timestamp_millis (5 : Int) = some 5)
    ∧ from_timestamp_millis (10000000000000000 : Int) = none
    ∧ (⟨10000000000000000, 0, 0, [('k')]⟩ : Message) ∉
        c5Decoded.filter (tsWithinBool 5 5) := by
  have H := c5_millisecond_filter fsC5 exCfg exKey 5 5 [exPath1] c5Decoded
    (by decide) (by decide)
  exact ⟨by decide, by decide, H.1, by decide,
    H.2.2.2 rfl ⟨5, 0, 5, [('h')]⟩, by decide,
    H.2.2.1 ⟨10000000000000000, 0, 0, [('k')]⟩ (by decide)⟩

/- ### C6 -/

/-- C6: day-level selection. The selection keeps exactly the metadata entries
whose filename-parsed date lies within the calendar-date projection of the
interval, inclusive on both ends; and it depends only on those calendar-date
projections — replacing either bound by any instant on the same calendar day
leaves the selection unchanged. -/
theorem c6_day_level_selection (metas : List FileMetadata) (ts : TimeSlice) :
    files_in_time_slice metas ts =
      (metas.filter (fun m =>
        decide (date_naive ts.fromTime ≤ m.date ∧ m.date ≤ date_naive ts.toTime))).map
        (fun m => m.path)
    ∧ (∀ f' t', date_naive f' = date_naive ts.fromTime →
        date_naive t' = date_naive ts.toTime →
        files_in_time_slice metas ⟨f', t'⟩ = files_in_time_slice metas ts) := by
  constructor
  · simp [files_in_time_slice, is_within, Bool.decide_and]
  · intro f' t' h1 h2
    simp [files_in_time_slice, is_within, h1, h2]

/-- Metadata fixture for the C6 witness: one file on epoch day 0, one on day
1, one on day 2. -/
def c6Metas : List FileMetadata :=
  [⟨exPath1, 0⟩, ⟨exPath2, 1⟩, ⟨("other").toList, 2⟩]

/-- C6, witness: selection over `[0 ms, day 1 + 1 ms]` keeps the day-0 and
day-1 files, and moving the bounds inside the same calendar days (01:00 on
day 0, 01:00 on day 1) does not change the selection. -/
theorem c6_witness :
    date_naive 3600000 = date_naive 0
    ∧ date_naive 90000000 = date_naive 86400001
    ∧ files_in_time_slice c6Metas ⟨3600000, 90000000⟩ =
        files_in_time_slice c6Metas ⟨0, 86400001⟩
    ∧ files_in_time_slice c6Metas ⟨0, 86400001⟩ =
        (c6Metas.filter (fun m =>
          decide (date_naive 0 ≤ m.date ∧ m.date ≤ date_naive 86400001))).map
          (fun m => m.path) := by
  have H := c6_day_level_selection c6Metas ⟨0, 86400001⟩
  exact ⟨by decide, by decide, H.2 3600000 90000000 (by decide) (by decide), H.1⟩

/- ### C7 -/

/-- C7: a query missing the `from` bound or the `to` bound fails with
`InvalidQuery` in both the materialized and the incremental mode, and the
outcome is the same for every filesystem — no filesystem access can have
taken place before the failure. -/
theorem c7_missing_bound_invalid_query (cfg : Config) (key : QueryKey)
    (q : QueryParams) (h : q.from? = none ∨ q.to? = none) :
    (∀ fs, get_market_data fs cfg key q = .error .invalidQuery)
    ∧ (∀ fs, stream_market_data fs cfg key q = .error .invalidQuery) := by
  obtain ⟨qf, qt⟩ := q
  have hcase : qf = none ∨ qt = none := h
  constructor
  · intro fs
    rcases hcase with h' | h'
    · subst h'; cases qt <;> rfl
    · subst h'; cases qf <;> rfl
  · intro fs
    rcases hcase with h' | h'
    · subst h'; simp [stream_market_data]
    · subst h'; simp [stream_market_data]

/-- C7, witness: a query with `from` absent is rejected identically over two
different filesystems in both modes. -/
theorem c7_witness :
    get_market_data fsEmptyDir exCfg exKey ⟨none, some 0⟩ = .error .invalidQuery
    ∧ stream_market_data fsEmptyDir exCfg exKey ⟨none, some 0⟩ =
        .error .invalidQuery
    ∧ get_market_data fsNoDir exCfg exKey ⟨none, some 0⟩ =
        .error .invalidQuery := by
  have H := c7_missing_bound_invalid_query exCfg exKey ⟨none, some 0⟩ (Or.inl rfl)
  exact ⟨H.1 fsEmptyDir, H.2 fsEmptyDir, H.1 fsNoDir⟩

/- ### C8 -/

/-- C8: an unlistable directory fails the query — as the propagated directory
error in the materialized mode and as the in-band find-failure item in the
incremental mode, never as a silent empty success — while a listable
directory with zero matching candidate files yields an empty success in both
modes. -/
theorem c8_directory_error_vs_empty_success (fs : Fs) (cfg : Config)
    (key : QueryKey) (f t : Int) :
    (fs.listDir = none →
      get_market_data fs cfg key ⟨some f, some t⟩ = .error .directoryUnavailable
      ∧ s_market_data fs cfg key ⟨some f, some t⟩ =
          .items [.error .findFilesFailed])
    ∧ (find_files fs cfg key f t = .ok [] →
      get_market_data fs cfg key ⟨some f, some t⟩ = .ok []
      ∧ s_market_data fs cfg key ⟨some f, some t⟩ = .items []) := by
  constructor
  · intro hld
    have hfind : find_files fs cfg key f t = .dirError := by
      simp [find_files, files_for_symbol, hld]
    exact ⟨by rw [get_market_data_some, hfind], by rw [s_market_data_some, hfind]⟩
  · intro hfind
    exact ⟨by rw [get_market_data_some, hfind]; rfl,
      by rw [s_market_data_some, hfind]; rfl⟩

/-- C8, witness: the unlistable-directory case on `fsNoDir` and the
zero-matching-files case on `fsEmptyDir`. -/
theorem c8_witness :
    (get_market_data fsNoDir exCfg exKey ⟨some 0, some 1⟩ =
        .error .directoryUnavailable
      ∧ s_market_data fsNoDir exCfg exKey ⟨some 0, some 1⟩ =
          .items [.error .findFilesFailed])
    ∧ (get_market_data fsEmptyDir exCfg exKey ⟨some 0, some 1⟩ = .ok []
      ∧ s_market_data fsEmptyDir exCfg exKey ⟨some 0, some 1⟩ = .items []) :=
  ⟨(c8_directory_error_vs_empty_success fsNoDir exCfg exKey 0 1).1 rfl,
    (c8_directory_error_vs_empty_success fsEmptyDir exCfg exKey 0 1).2 (by decide)⟩

/- ### C9 -/

/-- C9: exact affix matching. A filename is accepted (yields a date
substring) only if it begins with the symbol followed by a literal dot and
ends with a literal dot followed by the extension; concretely,
`ethusdt.2019-04-05.parquet` matches symbol `ethusdt` with extension
`parquet`, while `ethusdt2.2019-04-05.parquet` does not. -/
theorem c9_exact_affix_matching
    (filename symbol extension d : List Char)
    (h : extract_date_from_filename filename (symbol ++ [('.')])
        (('.') :: extension) = .date d) :
    ((symbol ++ [('.')]) <+: filename ∧ (('.') :: extension) <:+ filename)
    ∧ extract_date_from_filename (("ethusdt.2019-04-05.parquet").toList)
        (("ethusdt.").toList) ((".parquet").toList) =
          .date (("2019-04-05").toList)
    ∧ extract_date_from_filename (("ethusdt2.2019-04-05.parquet").toList)
        (("ethusdt.").toList) ((".parquet").toList) = .skipped := by
  refine ⟨?_, by decide, by decide⟩
  unfold extract_date_from_filename at h
  by_cases hc : ((symbol ++ [('.')]).isPrefixOf filename
      && (('.') :: extension).isSuffixOf filename) = true
  · rw [Bool.and_eq_true] at hc
    exact ⟨List.isPrefixOf_iff_prefix.mp hc.1, List.isSuffixOf_iff_suffix.mp hc.2⟩
  · rw [if_neg hc] at h
    exact absurd h (by simp)

/-- C9, witness: the accepting instance of the affix property. -/
theorem c9_witness :
    extract_date_from_filename (("ethusdt.2019-04-05.parquet").toList)
        ((("ethusdt").toList) ++ [('.')]) (('.') :: (("parquet").toList)) =
      .date (("2019-04-05").toList)
    ∧ ((("ethusdt").toList) ++ [('.')]) <+: (("ethusdt.2019-04-05.parquet").toList)
    ∧ (('.') :: (("parquet").toList)) <:+ (("ethusdt.2019-04-05.parquet").toList) := by
  have H := c9_exact_affix_matching (("ethusdt.2019-04-05.parquet").toList)
    (("ethusdt").toList) (("parquet").toList) (("2019-04-05").toList) (by decide)
  exact ⟨by decide, H.1.1, H.1.2⟩

/- ### C10 -/

/-- C10: per-record UTF-8 failure in incremental mode. A record whose payload
is not valid UTF-8 produces exactly one in-band error item, at that record's
position in its file's item sequence; the items of the records after it in
the same file follow in decode order — the record is neither silently
dropped nor does it terminate the stream. -/
theorem c10_utf8_error_item_in_place
    (fs : Fs) (cfg : Config) (key : QueryKey) (f t : Int) (p : List Char)
    (e : Entry) (l1 l2 : List (Except Unit Entry))
    (hbad : utf8Decode e.data = none)
    (hstream : fs.entryStream p = some (l1 ++ .ok e :: l2)) :
    entryItem f t (.ok e) = some (.error .dataDecodeError)
    ∧ fileItems fs f t p =
        l1.filterMap (entryItem f t)
          ++ .error .dataDecodeError :: l2.filterMap (entryItem f t)
    ∧ (find_files fs cfg key f t = .ok [p] →
        s_market_data fs cfg key ⟨some f, some t⟩ =
          .items (l1.filterMap (entryItem f t)
            ++ .error .dataDecodeError :: l2.filterMap (entryItem f t))) := by
  have h1 : entryItem f t (.ok e) = some (.error .dataDecodeError) := by
    show (match utf8Decode e.data with
      | none => some (Except.error SErr.dataDecodeError)
      | some s =>
        match from_timestamp_millis e.timestamp_info.timestamp_millis with
        | some mt =>
          if f ≤ mt ∧ mt ≤ t then
            some (Except.ok (Message.mk e.timestamp_info.timestamp_millis
              e.timestamp_info.timestamp_sec
              e.timestamp_info.timestamp_sub_sec s))
          else none
        | none => none) = some (Except.error SErr.dataDecodeError)
    rw [hbad]
  have h2 : fileItems fs f t p =
      l1.filterMap (entryItem f t)
        ++ .error .dataDecodeError :: l2.filterMap (entryItem f t) := by
    have hred : fileItems fs f t p =
        (l1 ++ Except.ok e :: l2).filterMap (entryItem f t) := by
      unfold fileItems
      rw [hstream]
    rw [hred, List.filterMap_append, List.filterMap_cons, h1]
  refine ⟨h1, h2, ?_⟩
  intro hfind
  rw [s_market_data_some, hfind]
  simp [h2]

/-- Well-formed entry before the bad record: timestamp 1 ms, payload `a`. -/
def c10Good1 : Entry := ⟨⟨1, 0, 1⟩, [97]⟩

/-- Entry whose payload byte `0xFF` is not valid UTF-8. -/
def c10Bad : Entry := ⟨⟨2, 0, 2⟩, [255]⟩

/-- Well-formed entry after the bad record: timestamp 3 ms, payload `b`. -/
def c10Good2 : Entry := ⟨⟨3, 0, 3⟩, [98]⟩

/-- Filesystem for C10: one daily file streaming a good record, a record
with an invalid UTF-8 payload, and another good record. -/
def fsC10 : Fs :=
  ⟨some [("s.1970-01-01.parquet").toList],
   fun _ => none,
   fun p => if p = exPath1
     then some [.ok c10Good1, .ok c10Bad, .ok c10Good2] else none⟩

/-- C10, witness: on `fsC10` the invalid payload yields one error item
between the two good records' items. -/
theorem c10_witness :
    utf8Decode c10Bad.data = none
    ∧ fsC10.entryStream exPath1 =
        some ([.ok c10Good1] ++ .ok c10Bad :: [.ok c10Good2])
    ∧ find_files fsC10 exCfg exKey 0 86400000 = .ok [exPath1]
    ∧ s_market_data fsC10 exCfg exKey ⟨some 0, some 86400000⟩ =
        .items ([Except.ok c10Good1].filterMap (entryItem 0 86400000)
          ++ .error .dataDecodeError
            :: [Except.ok c10Good2].filterMap (entryItem 0 86400000))
    ∧ [Except.ok c10Good1].filterMap (entryItem (0 : Int) 86400000) =
        [.ok ⟨1, 0, 1, [('a')]⟩]
    ∧ [Except.ok c10Good2].filterMap (entryItem (0 : Int) 86400000) =
        [.ok ⟨3, 0, 3, [('b')]⟩] := by
  have H := c10_utf8_error_item_in_place fsC10 exCfg exKey 0 86400000 exPath1
    c10Bad [.ok c10Good1] [.ok c10Good2] (by decide) (by decide)
  exact ⟨by decide, by decide, by decide, H.2.2 (by decide), by decide, by decide⟩

end Mdds
